import Mathlib

/-!
Verification of the pyprf_feature model-creation and fit-reconstruction core.

This file gives a shallow embedding of the analysed sources
(`analysis/save_fit_tc_nii.py`, `analysis/model_creation_main.py`) and proves
or refutes the specified properties against it.  NumPy floating-point arrays
are modelled with exact rationals (`ℚ`), NumPy files (`np.save`/`np.load`)
with an association list keyed by character-list paths, and Python exceptions
(`IndexError`, failed `assert`) with `Option`/`none`.  Helper functions of the
repository that are not among the analysed sources (`crt_mdl_prms`,
`fnd_unq_rws`, `crt_mdl_rsp` from `model_creation_utils.py`) are modelled from
the specification and marked as such in their doc comments.
-/

/-- A parameter triple (x-position, y-position, sigma), one row of the
parameter grid or of the per-voxel winning parameters. -/
abbrev Prm : Type := ℚ × ℚ × ℚ

/-- A one-dimensional array of rationals (a time course, a weight vector). -/
abbrev Vec : Type := List ℚ

/-- A two-dimensional array of rationals. -/
abbrev Mat : Type := List Vec

/-- Absolute value on ℚ, written out so that it is a plain executable
definition. -/
def npAbs (q : ℚ) : ℚ := if q ≤ 0 then -q else q

theorem npAbs_eq_abs (q : ℚ) : npAbs q = |q| := by
  rw [npAbs]
  split
  · rw [abs_of_nonpos (by assumption)]
  · rw [abs_of_pos (lt_of_not_le (by assumption))]

/-- The `np.isclose` threshold used at `save_fit_tc_nii.py` line 98:
`np.isclose(a, b, atol=1e-04)` keeps NumPy's default relative tolerance
`rtol = 1e-05`, so two scalars compare close when
`|a - b| <= atol + rtol * |b|`.  This is that right-hand side. -/
def atolRtol (b : ℚ) : ℚ := 1/10000 + (1/100000) * npAbs b

/-- Scalar `np.isclose(a, b, atol=1e-04)` (default `rtol=1e-05`). -/
def npIsClose (a b : ℚ) : Bool := decide (npAbs (a - b) ≤ atolRtol b)

/-- `np.isclose(aryMdlParams, vecPrm, atol=1e-04).all(axis=1)` for one grid
row `r` against the winning triple `v`: all three components close. -/
def rowIsClose (r v : Prm) : Bool :=
  npIsClose r.1 v.1 && npIsClose r.2.1 v.2.1 && npIsClose r.2.2 v.2.2

/-- `np.where(cond)[0][0]`: the first index at which the predicate holds;
`none` models the `IndexError` raised by `[0][0]` on an empty result
(`save_fit_tc_nii.py` lines 98-99). -/
def np_where_first (p : α → Bool) : List α → Option ℕ
  | [] => none
  | a :: l => if p a then some 0 else (np_where_first p l).map (· + 1)

theorem np_where_first_eq_none_iff (p : α → Bool) (l : List α) :
    np_where_first p l = none ↔ ∀ a ∈ l, p a = false := by
  induction l with
  | nil => simp [np_where_first]
  | cons a l ih =>
    by_cases h : p a
    · simp [np_where_first, h]
    · simp only [np_where_first, if_neg h, Option.map_eq_none', ih, List.mem_cons]
      constructor
      · intro hall b hb
        rcases hb with hb | hb
        · subst hb; exact Bool.eq_false_iff.mpr h
        · exact hall b hb
      · intro hall b hb
        exact hall b (Or.inr hb)

theorem np_where_first_some (p : α → Bool) (l : List α) (i : ℕ)
    (h : np_where_first p l = some i) :
    ∃ a, l.get? i = some a ∧ p a = true ∧
      ∀ j b, j < i → l.get? j = some b → p b = false := by
  induction l generalizing i with
  | nil => simp [np_where_first] at h
  | cons a l ih =>
    by_cases ha : p a
    · simp only [np_where_first, if_pos ha, Option.some.injEq] at h
      subst h
      exact ⟨a, rfl, ha, fun j b hj => by omega⟩
    · simp only [np_where_first, if_neg ha, Option.map_eq_some'] at h
      obtain ⟨i', hi', rfl⟩ := h
      obtain ⟨b, hb, hpb, hfst⟩ := ih i' hi'
      refine ⟨b, hb, hpb, ?_⟩
      intro j c hj hc
      cases j with
      | zero =>
        simp only [List.get?_cons_zero, Option.some.injEq] at hc
        subst hc
        exact Bool.eq_false_iff.mpr ha
      | succ j =>
        simp only [List.get?_cons_succ] at hc
        exact hfst j c (by omega) hc

theorem np_where_first_isSome (p : α → Bool) (l : List α) (a : α)
    (hmem : a ∈ l) (hp : p a = true) : ∃ i, np_where_first p l = some i := by
  cases h : np_where_first p l with
  | some i => exact ⟨i, rfl⟩
  | none =>
    have := (np_where_first_eq_none_iff p l).mp h a hmem
    rw [hp] at this
    cases this

/-- First index of equality with a fixed element of a `Nodup` list: if
position `g` holds the element, the search returns exactly `g`. -/
theorem np_where_first_nodup [DecidableEq α] (l : List α) (a : α) (g : ℕ)
    (hnd : l.Nodup) (hg : l.get? g = some a) :
    np_where_first (fun x => decide (x = a)) l = some g := by
  induction l generalizing g with
  | nil => simp at hg
  | cons b l ih =>
    rw [List.nodup_cons] at hnd
    cases g with
    | zero =>
      simp only [List.get?_cons_zero, Option.some.injEq] at hg
      subst hg
      simp [np_where_first]
    | succ g =>
      simp only [List.get?_cons_succ] at hg
      have hba : ¬ b = a := by
        intro hcontra
        subst hcontra
        exact hnd.1 (List.get?_mem hg)
      simp only [np_where_first, decide_eq_true_eq, if_neg hba]
      rw [ih g hnd.2 hg]
      rfl

/-- Embedding of the assertion at `save_fit_tc_nii.py` line 114:
`assert len(vecVxlTst) == np.sum(vecVxlTst)`. -/
def coverage_assert (vecVxlTst : List ℕ) : Bool :=
  vecVxlTst.length == vecVxlTst.sum

/-- C1: the reconstruction's final coverage check is
`len(vecVxlTst) == sum(vecVxlTst)`, not "every entry equals 1": on the visit
count vector `[0, 2]` (one voxel never visited, one visited twice) the
assertion passes even though not every voxel was visited exactly once,
contradicting the claim and the code's own comment
("check that every voxel was visited exactly once"). -/
theorem coverage_assert_not_exactly_once :
    coverage_assert [0, 2] = true ∧ ¬ (∀ c ∈ ([0, 2] : List ℕ), c = 1) := by
  decide

/-- C2 counterexample: with two identical grid rows both matching the winning
triple, the lookup silently succeeds with the first index; multiple matches
are not treated as a configuration fault (no error is signalled). -/
theorem lookup_multiple_match_counterexample :
    rowIsClose ((0 : ℚ), (0 : ℚ), (1 : ℚ)) ((0 : ℚ), (0 : ℚ), (1 : ℚ)) = true ∧
    ([((0 : ℚ), (0 : ℚ), (1 : ℚ)), ((0 : ℚ), (0 : ℚ), (1 : ℚ))] : List Prm).get? 1 =
      some ((0 : ℚ), (0 : ℚ), (1 : ℚ)) ∧
    np_where_first (fun r => rowIsClose r ((0 : ℚ), (0 : ℚ), (1 : ℚ)))
      [((0 : ℚ), (0 : ℚ), (1 : ℚ)), ((0 : ℚ), (0 : ℚ), (1 : ℚ))] = some 0 := by
  refine ⟨?_, rfl, ?_⟩ <;> norm_num [np_where_first, rowIsClose, npIsClose, atolRtol, npAbs]

/-- C2 (amended): the grid lookup
`np.where(np.isclose(aryMdlParams, vecPrm, atol=1e-04).all(axis=1))[0][0]`
fails (IndexError, modelled `none`) exactly when no grid row is
componentwise close to the triple; on success it returns the first matching
row, so multiple matches are accepted silently rather than faulted. -/
theorem lookup_zero_match_errors (grid : List Prm) (v : Prm) :
    (np_where_first (fun r => rowIsClose r v) grid = none ↔
      ∀ r ∈ grid, rowIsClose r v = false) ∧
    (∀ i, np_where_first (fun r => rowIsClose r v) grid = some i →
      ∃ r, grid.get? i = some r ∧ rowIsClose r v = true ∧
        ∀ j s, j < i → grid.get? j = some s → rowIsClose s v = false) := by
  refine ⟨np_where_first_eq_none_iff _ grid, ?_⟩
  intro i hi
  exact np_where_first_some _ grid i hi

/-- Witness for the C2 theorem at a concrete input: the empty grid matches
nothing, and on a one-row matching grid the lookup returns row 0. -/
theorem lookup_zero_match_errors_witness :
    np_where_first (fun r => rowIsClose r ((0 : ℚ), (0 : ℚ), (1 : ℚ))) ([] : List Prm) = none ∧
    ∃ r, ([((0 : ℚ), (0 : ℚ), (1 : ℚ))] : List Prm).get? 0 = some r ∧
      rowIsClose r ((0 : ℚ), (0 : ℚ), (1 : ℚ)) = true ∧
      ∀ j s, j < 0 → ([((0 : ℚ), (0 : ℚ), (1 : ℚ))] : List Prm).get? j = some s →
        rowIsClose s ((0 : ℚ), (0 : ℚ), (1 : ℚ)) = false := by
  constructor
  · exact (lookup_zero_match_errors [] ((0 : ℚ), (0 : ℚ), (1 : ℚ))).1.mpr (by simp)
  · exact (lookup_zero_match_errors [((0 : ℚ), (0 : ℚ), (1 : ℚ))]
      ((0 : ℚ), (0 : ℚ), (1 : ℚ))).2 0
      (by norm_num [np_where_first, rowIsClose, npIsClose, atolRtol, npAbs])

/-- C4 counterexample: the grid row `(10, 10, 10)` and a triple whose every
component is `10 + 3/20000`, i.e. perturbed by `1.5e-4 > 1e-4` from the only
grid row.  The claim requires `NoMatchError`, but because `np.isclose` keeps
its default `rtol = 1e-5`, the threshold is `1e-4 + 1e-5·10.00015 ≈ 2e-4`
and the lookup succeeds. -/
theorem tolerance_claim_counterexample :
    (|(10 : ℚ) - 200003/20000| > 1/10000) ∧
    np_where_first
      (fun r => rowIsClose r ((200003/20000 : ℚ), (200003/20000 : ℚ), (200003/20000 : ℚ)))
      [((10 : ℚ), (10 : ℚ), (10 : ℚ))] = some 0 := by
  constructor
  · rw [show ((10 : ℚ) - 200003/20000) = -(3/20000) by norm_num, abs_neg,
      abs_of_nonneg (by norm_num)]
    norm_num
  · norm_num [np_where_first, rowIsClose, npIsClose, atolRtol, npAbs]

/-- C4 (amended): a triple `v` perturbed by less than `1e-5` on every
component from a grid row `r` still satisfies the row-match test against `r`;
and a triple `w` for which every grid row has some component farther than the
actual `np.isclose` threshold `1e-4 + 1e-5·|w-component|` makes the lookup
fail (IndexError, modelled `none`).  Mere distance `> 1e-4` does not
suffice (see the counterexample). -/
theorem tolerance_matching (grid : List Prm) (r v w : Prm)
    (h1 : |r.1 - v.1| < 1/100000) (h2 : |r.2.1 - v.2.1| < 1/100000)
    (h3 : |r.2.2 - v.2.2| < 1/100000)
    (hw : ∀ u ∈ grid, |u.1 - w.1| > atolRtol w.1 ∨ |u.2.1 - w.2.1| > atolRtol w.2.1 ∨
      |u.2.2 - w.2.2| > atolRtol w.2.2) :
    rowIsClose r v = true ∧
    np_where_first (fun u => rowIsClose u w) grid = none := by
  constructor
  · have hb1 : (0 : ℚ) ≤ |v.1| := abs_nonneg _
    have hb2 : (0 : ℚ) ≤ |v.2.1| := abs_nonneg _
    have hb3 : (0 : ℚ) ≤ |v.2.2| := abs_nonneg _
    simp only [rowIsClose, npIsClose, atolRtol, npAbs_eq_abs, Bool.and_eq_true,
      decide_eq_true_eq]
    refine ⟨⟨?_, ?_⟩, ?_⟩ <;> nlinarith
  · rw [np_where_first_eq_none_iff]
    intro u hu
    rcases hw u hu with hfar | hfar | hfar <;>
      simp only [rowIsClose, npIsClose, npAbs_eq_abs, Bool.and_eq_false_iff,
        decide_eq_false_iff_not, not_le] <;> tauto

/-- Witness for the C4 theorem at concrete inputs: triple `(0, 0, 1 + 1/200000)`
matches the row `(0, 0, 1)` it was perturbed from by `5e-6 < 1e-5`; the triple
`(7, 7, 7)` is far from the only row of the grid `[(0, 0, 1)]` and the lookup
fails. -/
theorem tolerance_matching_witness :
    rowIsClose ((0 : ℚ), (0 : ℚ), (1 : ℚ)) ((0 : ℚ), (0 : ℚ), (200001/200000 : ℚ)) = true ∧
    np_where_first (fun u => rowIsClose u ((7 : ℚ), (7 : ℚ), (7 : ℚ)))
      [((0 : ℚ), (0 : ℚ), (1 : ℚ))] = none := by
  refine tolerance_matching [((0 : ℚ), (0 : ℚ), (1 : ℚ))]
    ((0 : ℚ), (0 : ℚ), (1 : ℚ)) ((0 : ℚ), (0 : ℚ), (200001/200000 : ℚ))
    ((7 : ℚ), (7 : ℚ), (7 : ℚ)) (by norm_num) (by norm_num) ?_ ?_
  · rw [show ((1 : ℚ) - 200001/200000) = -(1/200000) by norm_num, abs_neg,
      abs_of_nonneg (by norm_num)]
    norm_num
  · intro u hu
    simp only [List.mem_singleton] at hu
    subst hu
    left
    rw [atolRtol, npAbs_eq_abs,
      show ((0 : ℚ) - 7) = -(7 : ℚ) by norm_num, abs_neg,
      abs_of_nonneg (by norm_num : (0:ℚ) ≤ 7)]
    norm_num

/-- Embedding of the loop-body lookup and the dead `None` test at
`save_fit_tc_nii.py` lines 96-101: `lgcMdl` is bound to the first matching
index (an integer, modelled `some i`); the Python guard `lgcMdl is None` is
the `Option.isNone` of that value.  The whole step is `none` when the
indexing expression raises `IndexError`. -/
def mdlLookupStep (grid : List Prm) (v : Prm) : Option (Option ℕ × Bool) :=
  match np_where_first (fun r => rowIsClose r v) grid with
  | none => none
  | some i =>
    let lgcMdl : Option ℕ := some i
    some (lgcMdl, lgcMdl.isNone)

/-- C10: whenever the lookup expression does not raise, it yields a valid
matching row index — never `None` — so the `lgcMdl is None` branch
(`'---No model found'`) is unreachable: the branch guard evaluates to
`false` on every successful outcome. -/
theorem no_model_branch_unreachable (grid : List Prm) (v : Prm)
    (res : Option ℕ × Bool) (h : mdlLookupStep grid v = some res) :
    res.2 = false ∧
    ∃ i r, res.1 = some i ∧ grid.get? i = some r ∧ rowIsClose r v = true := by
  unfold mdlLookupStep at h
  cases hw : np_where_first (fun r => rowIsClose r v) grid with
  | none => rw [hw] at h; cases h
  | some i =>
    rw [hw] at h
    simp only [Option.some.injEq] at h
    subst h
    obtain ⟨r, hr, hpr, -⟩ := np_where_first_some _ grid i hw
    exact ⟨rfl, i, r, rfl, hr, hpr⟩

/-- Witness for the C10 theorem at a concrete input: a one-row grid exactly
matching the triple. -/
theorem no_model_branch_unreachable_witness :
    ((some 0, false) : Option ℕ × Bool).2 = false ∧
    ∃ i r, ((some 0, false) : Option ℕ × Bool).1 = some i ∧
      ([((0 : ℚ), (0 : ℚ), (1 : ℚ))] : List Prm).get? i = some r ∧
      rowIsClose r ((0 : ℚ), (0 : ℚ), (1 : ℚ)) = true := by
  exact no_model_branch_unreachable [((0 : ℚ), (0 : ℚ), (1 : ℚ))]
    ((0 : ℚ), (0 : ℚ), (1 : ℚ)) ((some 0, false))
    (by norm_num [mdlLookupStep, np_where_first, rowIsClose, npIsClose, atolRtol, npAbs])

/-- File-system paths, modelled as character lists (Python strings). -/
abbrev NpPath : Type := List Char

/-- The `.npy` suffix `np.save` appends to an extension-free path and
`np.load` expects explicitly (`model_creation_main.py` lines 122, 137). -/
def npyExt : NpPath := ['.', 'n', 'p', 'y']

/-- The `"_params"` suffix of `model_creation_main.py` line 124. -/
def paramsSuffix : NpPath := ['_', 'p', 'a', 'r', 'a', 'm', 's']

/-- A NumPy array as persisted by `np.save`: a shape vector plus the flat
data buffer.  Equality of these structures models bit-identity of the dump. -/
structure NpArray where
  shape : List ℕ
  data : List ℚ
deriving DecidableEq

/-- The file-system state seen by `np.save`/`np.load`: an association list
from paths to arrays, most recent write first. -/
abbrev Store : Type := List (NpPath × NpArray)

/-- `np.save(path, ary)`: writes the whole array at `path + '.npy'`. -/
def np_save (store : Store) (p : NpPath) (a : NpArray) : Store :=
  (p ++ npyExt, a) :: store

/-- `np.load(path)`: the most recent write at exactly `path`; `none` models
the missing-file error. -/
def np_load : Store → NpPath → Option NpArray
  | [], _ => none
  | e :: rest, p => if e.1 = p then some e.2 else np_load rest p

/-- Embedding of `model_creation` lines 121-124 (create branch): the time
course tensor is saved at the base path `cfg.strPathMdl` and the parameter
grid at the base path + `"_params"`. -/
def model_creation_save (store : Store) (strPathMdl : NpPath)
    (aryPrfTc aryMdlParams : NpArray) : Store :=
  np_save (np_save store strPathMdl aryPrfTc) (strPathMdl ++ paramsSuffix) aryMdlParams

/-- Embedding of `model_creation` lines 129-148 (load branch,
`lgcCrteMdl` false): `np.load` the tensor from `strPathMdl + '.npy'`, then
assert `shape[0] == varNum1 * varNum2 * varNumPrfSizes` and
`shape[-1] == varNumVol`; a failed assert (or an indexing error on a
shapeless 0-d array) returns no tensor (`none`). -/
def model_creation_load (store : Store) (strPathMdl : NpPath)
    (varNum1 varNum2 varNumPrfSizes varNumVol : ℕ) : Option NpArray :=
  match np_load store (strPathMdl ++ npyExt) with
  | none => none
  | some aryPrfTc =>
    match aryPrfTc.shape.head?, aryPrfTc.shape.getLast? with
    | some d0, some dLast =>
      if d0 = varNum1 * varNum2 * varNumPrfSizes ∧ dLast = varNumVol then
        some aryPrfTc
      else none
    | _, _ => none

/-- C5: the loaded tensor is validated against the configuration: the load
returns the tensor exactly when its leading dimension equals
`varNum1 * varNum2 * varNumPrfSizes` and its trailing dimension equals
`varNumVol`; if either disagrees no tensor is returned (the assertion at
lines 146-148 fails). -/
theorem model_creation_load_shape_check (store : Store) (p : NpPath)
    (n1 n2 ns nv : ℕ) (ary : NpArray)
    (h : np_load store (p ++ npyExt) = some ary) :
    model_creation_load store p n1 n2 ns nv =
      if ary.shape.head? = some (n1 * n2 * ns) ∧ ary.shape.getLast? = some nv then
        some ary
      else none := by
  unfold model_creation_load
  rw [h]
  cases h0 : ary.shape.head? with
  | none => simp [h0]
  | some d0 =>
    cases hl : ary.shape.getLast? with
    | none => simp [h0, hl]
    | some dLast => simp [h0, hl]

/-- Witness for the C5 theorem at a concrete input: a stored tensor of shape
`[2, 3]` checked against `varNum1 = varNum2 = varNumPrfSizes = 1` and
`varNumVol = 9`: both dimensions disagree, so no tensor is returned. -/
theorem model_creation_load_shape_check_witness :
    model_creation_load [((['a'] ++ npyExt : NpPath), NpArray.mk [2, 3] [])] ['a'] 1 1 1 9 =
      none := by
  rw [model_creation_load_shape_check
    [((['a'] ++ npyExt : NpPath), NpArray.mk [2, 3] [])] ['a'] 1 1 1 9
    (NpArray.mk [2, 3] []) (by simp [np_load])]
  simp

/-- C6: round trip of the model bank store.  Saving the tensor and the
parameter grid under a shared base path, then loading from the base path,
returns the identical tensor: the `"_params"` write cannot shadow the tensor
because the two paths differ. -/
theorem model_bank_round_trip (store : Store) (p : NpPath) (tc grid : NpArray) :
    np_load (model_creation_save store p tc grid) (p ++ npyExt) = some tc := by
  have hne : ¬ ((p ++ paramsSuffix) ++ npyExt = p ++ npyExt) := by
    intro hcontra
    rw [List.append_assoc] at hcontra
    have := List.append_cancel_left hcontra
    simp [paramsSuffix, npyExt] at this
  simp only [model_creation_save, np_save, np_load]
  rw [if_neg hne]
  simp

/-- `np.linspace(a, b, n)`: `n` evenly spaced samples over the inclusive
interval `[a, b]` (a single sample is `a` itself). -/
def linspace (a b : ℚ) (n : ℕ) : List ℚ :=
  (List.range n).map (fun (i : ℕ) => if n = 1 then a else a + (b - a) * (i : ℚ) / ((n : ℚ) - 1))

theorem linspace_length (a b : ℚ) (n : ℕ) : (linspace a b n).length = n := by
  rw [linspace, List.length_map, List.length_range]

theorem length_flatMap_const {α β : Type} (l : List α) (f : α → List β) (k : ℕ)
    (h : ∀ a ∈ l, (f a).length = k) : (l.flatMap f).length = l.length * k := by
  induction l with
  | nil => simp
  | cons a l ih =>
    simp only [List.flatMap_cons, List.length_append, List.length_cons]
    rw [h a (by simp), ih (fun b hb => h b (by simp [hb]))]
    ring

/-- Modelled from the spec: `crt_mdl_prms` is defined in
`model_creation_utils.py`, which is not among the analysed sources.  Per spec
§4.1 / §3 it enumerates the Cartesian grid of candidate model parameters
(x-position, y-position, size) from the axis counts and inclusive ranges with
a fixed iteration order (outer loop over x, then y, then sigma), and fails
with `ConfigError` (modelled `none`) if any count is non-positive or any
range is degenerate (min > max).  The unit/coordinate keywords do not affect
the properties verified here and are carried as an opaque argument. -/
def crt_mdl_prms (varVslSpcSze : ℕ × ℕ) (varNum1 : ℕ) (varExtXmin varExtXmax : ℚ)
    (varNum2 : ℕ) (varExtYmin varExtYmax : ℚ) (varNumPrfSizes : ℕ)
    (varPrfStdMin varPrfStdMax : ℚ) : Option (List Prm) :=
  if 0 < varNum1 ∧ 0 < varNum2 ∧ 0 < varNumPrfSizes ∧ varExtXmin ≤ varExtXmax ∧
      varExtYmin ≤ varExtYmax ∧ varPrfStdMin ≤ varPrfStdMax then
    some ((linspace varExtXmin varExtXmax varNum1).flatMap (fun x =>
      (linspace varExtYmin varExtYmax varNum2).flatMap (fun y =>
        (linspace varPrfStdMin varPrfStdMax varNumPrfSizes).map (fun s => (x, y, s)))))
  else none

/-- C7: for every valid configuration (positive axis counts, non-degenerate
ranges) the parameter grid exists and has exactly
`varNum1 * varNum2 * varNumPrfSizes` rows; and the row sequence is
deterministic — the builder is a pure function, so any two results of the
same call coincide. -/
theorem crt_mdl_prms_length (sz : ℕ × ℕ) (n1 n2 ns : ℕ)
    (xmin xmax ymin ymax smin smax : ℚ)
    (h1 : 0 < n1) (h2 : 0 < n2) (h3 : 0 < ns)
    (hx : xmin ≤ xmax) (hy : ymin ≤ ymax) (hs : smin ≤ smax) :
    ∃ g, crt_mdl_prms sz n1 xmin xmax n2 ymin ymax ns smin smax = some g ∧
      g.length = n1 * n2 * ns ∧
      ∀ g', crt_mdl_prms sz n1 xmin xmax n2 ymin ymax ns smin smax = some g' → g' = g := by
  rw [crt_mdl_prms, if_pos ⟨h1, h2, h3, hx, hy, hs⟩]
  refine ⟨_, rfl, ?_, ?_⟩
  · rw [length_flatMap_const _ _ (n2 * ns), linspace_length, mul_assoc]
    intro x hx'
    rw [length_flatMap_const _ _ ns, linspace_length]
    intro y hy'
    rw [List.length_map, linspace_length]
  · intro g' hg'
    exact (Option.some.injEq _ _ ▸ hg').symm

/-- Witness for the C7 theorem at a concrete valid configuration:
2 x-positions, 2 y-positions and 1 size give a 4-row grid. -/
theorem crt_mdl_prms_length_witness :
    ∃ g, crt_mdl_prms (5, 5) 2 0 1 2 0 1 1 1 1 = some g ∧
      g.length = 2 * 2 * 1 ∧
      ∀ g', crt_mdl_prms (5, 5) 2 0 1 2 0 1 1 1 1 = some g' → g' = g := by
  exact crt_mdl_prms_length (5, 5) 2 2 1 0 1 0 1 1 1 (by norm_num) (by norm_num)
    (by norm_num) (by norm_num) (by norm_num) (by norm_num)

/-- A two-dimensional NumPy array over entries of type `α` (for the spatial
condition array, `α` is the vector of per-condition values at that pixel);
`entry i j` is the value at row `i`, column `j`. -/
structure NpArr2 (α : Type) where
  rows : ℕ
  cols : ℕ
  entry : ℕ → ℕ → α

/-- One counterclockwise quarter turn, `np.rot90(A, k=1)`:
`rot90(A)[i][j] = A[j][cols - 1 - i]`. -/
def np_rot90 (A : NpArr2 α) : NpArr2 α :=
  ⟨A.cols, A.rows, fun i j => A.entry j (A.cols - 1 - i)⟩

/-- `np.rot90(A, k)`: `k` counterclockwise quarter turns. -/
def np_rot90_k : ℕ → NpArr2 α → NpArr2 α
  | 0, A => A
  | k + 1, A => np_rot90_k k (np_rot90 A)

/-- A single clockwise (rightward) quarter turn, defined independently:
`cw(A)[i][j] = A[rows - 1 - j][i]`. -/
def rot90_rightward (A : NpArr2 α) : NpArr2 α :=
  ⟨A.cols, A.rows, fun i j => A.entry (A.rows - 1 - j) i⟩

/-- Embedding of the create branch of `model_creation`, lines 57-97: the
loaded spatial condition array is rotated once with `np.rot90(·, k=3)`
(line 65) and the rotated array is what `crt_mdl_rsp` consumes (line 94).
`crt_mdl_rsp` is defined in `model_creation_utils.py`, not among the
analysed sources, so the consumer is abstracted as a function parameter. -/
def model_creation_spatial (arySptExpInf : NpArr2 Vec)
    (crt_mdl_rsp : NpArr2 Vec → List Prm → Mat) (aryMdlParams : List Prm) : Mat :=
  crt_mdl_rsp (np_rot90_k 3 arySptExpInf) aryMdlParams

/-- C8: the spatial response generation consumes exactly the once-rotated
array `np.rot90(arySptExpInf, k=3)` (for every consumer `f`), and the three
counterclockwise quarter turns amount to a single 90-degree rightward
(clockwise) rotation: the dimensions agree and every in-range entry agrees. -/
theorem model_creation_spatial_rotation (A : NpArr2 Vec)
    (f : NpArr2 Vec → List Prm → Mat) (ps : List Prm) :
    model_creation_spatial A f ps = f (np_rot90_k 3 A) ps ∧
    (np_rot90_k 3 A).rows = (rot90_rightward A).rows ∧
    (np_rot90_k 3 A).cols = (rot90_rightward A).cols ∧
    ∀ i j, i < A.cols →
      (np_rot90_k 3 A).entry i j = (rot90_rightward A).entry i j := by
  refine ⟨rfl, rfl, rfl, ?_⟩
  intro i j hi
  simp only [np_rot90_k, np_rot90, rot90_rightward]
  have hsub : A.cols - 1 - (A.cols - 1 - i) = i := by omega
  rw [hsub]

/-- Witness for the C8 theorem at a concrete 2-by-3 array. -/
theorem model_creation_spatial_rotation_witness :
    model_creation_spatial (NpArr2.mk 2 3 (fun i j => [(i : ℚ), (j : ℚ)]))
        (fun (_ : NpArr2 Vec) (_ : List Prm) => ([] : Mat)) [] =
      (fun (_ : NpArr2 Vec) (_ : List Prm) => ([] : Mat)) (np_rot90_k 3
          (NpArr2.mk 2 3 (fun i j => [(i : ℚ), (j : ℚ)]))) [] ∧
    (np_rot90_k 3 (NpArr2.mk 2 3 (fun i j => [(i : ℚ), (j : ℚ)]))).rows =
      (rot90_rightward (NpArr2.mk 2 3 (fun i j => [(i : ℚ), (j : ℚ)]))).rows ∧
    (np_rot90_k 3 (NpArr2.mk 2 3 (fun i j => [(i : ℚ), (j : ℚ)]))).cols =
      (rot90_rightward (NpArr2.mk 2 3 (fun i j => [(i : ℚ), (j : ℚ)]))).cols ∧
    ∀ i j, i < (NpArr2.mk 2 3 (fun i j => [(i : ℚ), (j : ℚ)])).cols →
      (np_rot90_k 3 (NpArr2.mk 2 3 (fun i j => [(i : ℚ), (j : ℚ)]))).entry i j =
        (rot90_rightward (NpArr2.mk 2 3 (fun i j => [(i : ℚ), (j : ℚ)]))).entry i j := by
  exact model_creation_spatial_rotation (NpArr2.mk 2 3 (fun i j => [(i : ℚ), (j : ℚ)]))
    (fun (_ : NpArr2 Vec) (_ : List Prm) => ([] : Mat)) []

/-- Modelled from the spec: `fnd_unq_rws` is defined in
`model_creation_utils.py`, which is not among the analysed sources.  Per spec
§4.5 step 1 it computes the set of distinct rows of the winning-parameter
array, grouping equal rows together, and (`return_inverse=True`) the inverse
index mapping every voxel to the position of its row among the distinct
rows.  Distinct rows are realised with `List.dedup`; the inverse index of a
voxel's row is its first (unique, by nodup) position there. -/
def fnd_unq_rws (rows : List Prm) : List Prm × List ℕ :=
  let aryUnqRows := rows.dedup
  (aryUnqRows,
   rows.map (fun r => (np_where_first (fun u => decide (u = r)) aryUnqRows).getD 0))

/-- `np.dot(w, m)` for a weight vector `w` (one weight per kernel) and a
2-d model time course `m` (kernel × volume): the inner product over the
kernel dimension, one entry per volume. -/
def dotVec (w : Vec) (m : Mat) : Vec :=
  (List.range (m.headD []).length).map
    (fun (t : ℕ) => ((w.zip m).map (fun p => p.1 * p.2.getD t 0)).sum)

/-- `vecVxlTst[lgcVxl] += 1` (line 103): bump the visit counter of every
voxel whose inverse index equals the current distinct-row index. -/
def bumpVisits (indRow : ℕ) : List ℕ → List ℕ → List ℕ
  | g :: gs, c :: cs => (if g = indRow then c + 1 else c) :: bumpVisits indRow gs cs
  | _, _ => []

/-- `aryFitTc[lgcVxl, :] = np.dot(aryBetas[lgcVxl, :], aryMdlTc)`
(lines 108-110): every voxel of the current group gets its own weight row
dotted with the matched model time course; all other rows are unchanged. -/
def writeFit (indRow : ℕ) (aryMdlTc : Mat) : List ℕ → Mat → Mat → Mat
  | g :: gs, b :: bs, row :: rows =>
    (if g = indRow then dotVec b aryMdlTc else row) :: writeFit indRow aryMdlTc gs bs rows
  | _, _, _ => []

/-- One iteration of the loop at lines 91-110 for the pair
`(indRow, vecPrm)`: look the triple up in the grid (IndexError → `none`),
then bump the visit counters and write the fitted rows of the group. -/
def save_tc_step (aryMdlParams : List Prm) (aryPrfTc : List Mat) (aryBetas : Mat)
    (aryUnqInd : List ℕ) (st : Mat × List ℕ) (q : ℕ × Prm) : Option (Mat × List ℕ) :=
  match np_where_first (fun r => rowIsClose r q.2) aryMdlParams with
  | none => none
  | some lgcMdl =>
    some (writeFit q.1 (aryPrfTc.getD lgcMdl []) aryUnqInd aryBetas st.1,
          bumpVisits q.1 aryUnqInd st.2)

/-- Python `enumerate` starting at `k`. -/
def pyEnumerateFrom (k : ℕ) : List α → List (ℕ × α)
  | [] => []
  | a :: l => (k, a) :: pyEnumerateFrom (k + 1) l

/-- Python `enumerate(aryUnqRows)` of line 91. -/
def pyEnumerate (l : List α) : List (ℕ × α) := pyEnumerateFrom 0 l

/-- `aryPrfTc.shape[-1]` for the 3-d model bank (model × kernel × volume). -/
def prfTcNumVol (aryPrfTc : List Mat) : ℕ := ((aryPrfTc.headD []).headD []).length

/-- Embedding of `save_tc_to_nii` lines 80-110: initialise the fitted time
courses to zeros and the visit counters to zero, then run the loop over the
enumerated distinct winning rows; `none` models an uncaught `IndexError`
from a failed grid lookup. -/
def save_tc_to_nii_core (aryMdlParams : List Prm) (aryPrfTc : List Mat)
    (aryIntGssPrm : List Prm) (aryBetas : Mat) : Option (Mat × List ℕ) :=
  List.foldlM (save_tc_step aryMdlParams aryPrfTc aryBetas (fnd_unq_rws aryIntGssPrm).2)
    (List.replicate aryIntGssPrm.length (List.replicate (prfTcNumVol aryPrfTc) 0),
     List.replicate aryIntGssPrm.length 0)
    (pyEnumerate (fnd_unq_rws aryIntGssPrm).1)

/-- Embedding of `save_tc_to_nii` lines 80-114: the loop followed by the
final coverage assertion (`none` on a failed assert). -/
def save_tc_to_nii (aryMdlParams : List Prm) (aryPrfTc : List Mat)
    (aryIntGssPrm : List Prm) (aryBetas : Mat) : Option Mat :=
  match save_tc_to_nii_core aryMdlParams aryPrfTc aryIntGssPrm aryBetas with
  | none => none
  | some st => if coverage_assert st.2 then some st.1 else none

theorem fnd_unq_rws_snd_length (rows : List Prm) :
    (fnd_unq_rws rows).2.length = rows.length := by
  simp [fnd_unq_rws]

/-- The inverse index of `fnd_unq_rws`: every voxel's index points at the
distinct row equal to the voxel's own winning row. -/
theorem fnd_unq_rws_inverse (rows : List Prm) (v : ℕ) (r : Prm)
    (hv : rows.get? v = some r) :
    ∃ g, (fnd_unq_rws rows).2.get? v = some g ∧ rows.dedup.get? g = some r := by
  have hmem : r ∈ rows.dedup := List.mem_dedup.mpr (List.get?_mem hv)
  obtain ⟨i, hi⟩ := np_where_first_isSome (fun u => decide (u = r)) rows.dedup r hmem
    (by simp)
  refine ⟨i, ?_, ?_⟩
  · simp only [fnd_unq_rws, List.get?_map, hv, Option.map_some', hi, Option.getD_some]
  · obtain ⟨a, ha, hpa, -⟩ := np_where_first_some _ rows.dedup i hi
    simp only [decide_eq_true_eq] at hpa
    rw [hpa] at ha
    exact ha

/-- Every distinct row's group is inhabited: some voxel's inverse index hits
it. -/
theorem fnd_unq_rws_surj (rows : List Prm) (g : ℕ) (u : Prm)
    (hg : rows.dedup.get? g = some u) :
    ∃ v, (fnd_unq_rws rows).2.get? v = some g := by
  have hmem : u ∈ rows := List.mem_dedup.mp (List.get?_mem hg)
  obtain ⟨v, hv⟩ := List.mem_iff_get?.mp hmem
  refine ⟨v, ?_⟩
  simp only [fnd_unq_rws, List.get?_map, hv, Option.map_some']
  rw [np_where_first_nodup rows.dedup u g (List.nodup_dedup rows) hg]
  rfl

theorem pyEnumerateFrom_fst_ge (l : List α) :
    ∀ k, ∀ q ∈ pyEnumerateFrom k l, k ≤ q.1 := by
  induction l with
  | nil => intro k q hq; simp [pyEnumerateFrom] at hq
  | cons a l ih =>
    intro k q hq
    simp only [pyEnumerateFrom, List.mem_cons] at hq
    rcases hq with hq | hq
    · subst hq; exact le_refl k
    · exact le_trans (by omega) (ih (k + 1) q hq)

/-- Splitting `enumerate` at index `g`: the pair `(k + g, l[g])` occurs once,
and no other pair carries the same index. -/
theorem pyEnumerateFrom_split (l : List α) :
    ∀ k g a, l.get? g = some a →
      ∃ L1 L2, pyEnumerateFrom k l = L1 ++ (k + g, a) :: L2 ∧
        (∀ q ∈ L1, q.1 ≠ k + g) ∧ (∀ q ∈ L2, q.1 ≠ k + g) := by
  induction l with
  | nil => intro k g a hg; simp at hg
  | cons b l ih =>
    intro k g a hg
    cases g with
    | zero =>
      simp only [List.get?_cons_zero, Option.some.injEq] at hg
      subst hg
      refine ⟨[], pyEnumerateFrom (k + 1) l, by simp [pyEnumerateFrom], by simp, ?_⟩
      intro q hq
      have := pyEnumerateFrom_fst_ge l (k + 1) q hq
      omega
    | succ g =>
      simp only [List.get?_cons_succ] at hg
      obtain ⟨L1, L2, heq, h1, h2⟩ := ih (k + 1) g a hg
      refine ⟨(k, b) :: L1, L2, ?_, ?_, ?_⟩
      · have hkg : k + (g + 1) = k + 1 + g := by omega
        rw [hkg]
        simp only [pyEnumerateFrom, heq, List.cons_append]
      · intro q hq
        simp only [List.mem_cons] at hq
        rcases hq with hq | hq
        · subst hq; show k ≠ k + (g + 1); omega
        · have := h1 q hq; omega
      · intro q hq
        have := h2 q hq; omega

theorem bumpVisits_get? (i : ℕ) :
    ∀ (gs cs : List ℕ) (v g c : ℕ), gs.get? v = some g → cs.get? v = some c →
      (bumpVisits i gs cs).get? v = some (if g = i then c + 1 else c) := by
  intro gs
  induction gs with
  | nil => intro cs v g c hg; simp at hg
  | cons g0 gs ih =>
    intro cs v g c hg hc
    cases cs with
    | nil => simp at hc
    | cons c0 cs =>
      cases v with
      | zero =>
        simp only [List.get?_cons_zero, Option.some.injEq] at hg hc
        subst hg; subst hc
        rfl
      | succ v =>
        simp only [List.get?_cons_succ] at hg hc
        simp only [bumpVisits, List.get?_cons_succ]
        exact ih cs v g c hg hc

theorem bumpVisits_length (i : ℕ) :
    ∀ gs cs : List ℕ, gs.length = cs.length →
      (bumpVisits i gs cs).length = gs.length := by
  intro gs
  induction gs with
  | nil => intro cs h; rfl
  | cons g0 gs ih =>
    intro cs h
    cases cs with
    | nil => simp at h
    | cons c0 cs =>
      simp only [List.length_cons] at h
      simp only [bumpVisits, List.length_cons]
      rw [ih cs (by omega)]

theorem writeFit_get? (i : ℕ) (m : Mat) :
    ∀ (gs : List ℕ) (bs rows : Mat) (v g : ℕ) (b row : Vec),
      gs.get? v = some g → bs.get? v = some b → rows.get? v = some row →
      (writeFit i m gs bs rows).get? v = some (if g = i then dotVec b m else row) := by
  intro gs
  induction gs with
  | nil => intro bs rows v g b row hg; simp at hg
  | cons g0 gs ih =>
    intro bs rows v g b row hg hb hrow
    cases bs with
    | nil => simp at hb
    | cons b0 bs =>
      cases rows with
      | nil => simp at hrow
      | cons r0 rows =>
        cases v with
        | zero =>
          simp only [List.get?_cons_zero, Option.some.injEq] at hg hb hrow
          subst hg; subst hb; subst hrow
          rfl
        | succ v =>
          simp only [List.get?_cons_succ] at hg hb hrow
          simp only [writeFit, List.get?_cons_succ]
          exact ih bs rows v g b row hg hb hrow

/-- A successful loop step is exactly: a successful grid lookup, a visit
bump for the group, and a fitted-row write for the group. -/
theorem save_tc_step_some (aryMdlParams : List Prm) (aryPrfTc : List Mat)
    (aryBetas : Mat) (aryUnqInd : List ℕ) (st : Mat × List ℕ) (q : ℕ × Prm)
    (st' : Mat × List ℕ)
    (h : save_tc_step aryMdlParams aryPrfTc aryBetas aryUnqInd st q = some st') :
    ∃ m, np_where_first (fun r => rowIsClose r q.2) aryMdlParams = some m ∧
      st' = (writeFit q.1 (aryPrfTc.getD m []) aryUnqInd aryBetas st.1,
             bumpVisits q.1 aryUnqInd st.2) := by
  unfold save_tc_step at h
  cases hw : np_where_first (fun r => rowIsClose r q.2) aryMdlParams with
  | none => rw [hw] at h; cases h
  | some m =>
    rw [hw] at h
    simp only [Option.some.injEq] at h
    exact ⟨m, rfl, h.symm⟩

/-- Voxels outside every group of the processed pairs keep their visit
count. -/
theorem save_tc_fold_snd_untouched (aryMdlParams : List Prm) (aryPrfTc : List Mat)
    (aryBetas : Mat) (aryUnqInd : List ℕ) :
    ∀ (L : List (ℕ × Prm)) (st st' : Mat × List ℕ) (v g c : ℕ),
      List.foldlM (save_tc_step aryMdlParams aryPrfTc aryBetas aryUnqInd) st L = some st' →
      (∀ q ∈ L, q.1 ≠ g) → aryUnqInd.get? v = some g → st.2.get? v = some c →
      st'.2.get? v = some c := by
  intro L
  induction L with
  | nil =>
    intro st st' v g c hfold hne hv hc
    simp only [List.foldlM_nil, Option.pure_def, Option.some.injEq] at hfold
    subst hfold
    exact hc
  | cons q L ih =>
    intro st st' v g c hfold hne hv hc
    simp only [List.foldlM_cons] at hfold
    cases hstep : save_tc_step aryMdlParams aryPrfTc aryBetas aryUnqInd st q with
    | none => rw [hstep] at hfold; cases hfold
    | some st1 =>
      rw [hstep] at hfold
      obtain ⟨m, -, hst1⟩ := save_tc_step_some _ _ _ _ _ _ _ hstep
      have hq : q.1 ≠ g := hne q (by simp)
      have hc1 : st1.2.get? v = some c := by
        rw [hst1]
        rw [bumpVisits_get? q.1 aryUnqInd st.2 v g c hv hc]
        have : ¬ g = q.1 := fun hcontra => hq hcontra.symm
        rw [if_neg this]
      exact ih st1 st' v g c hfold (fun q' hq' => hne q' (by simp [hq'])) hv hc1

/-- Voxels outside every group of the processed pairs keep their fitted
row. -/
theorem save_tc_fold_fst_untouched (aryMdlParams : List Prm) (aryPrfTc : List Mat)
    (aryBetas : Mat) (aryUnqInd : List ℕ) :
    ∀ (L : List (ℕ × Prm)) (st st' : Mat × List ℕ) (v g : ℕ) (b row : Vec),
      List.foldlM (save_tc_step aryMdlParams aryPrfTc aryBetas aryUnqInd) st L = some st' →
      (∀ q ∈ L, q.1 ≠ g) → aryUnqInd.get? v = some g → aryBetas.get? v = some b →
      st.1.get? v = some row → st'.1.get? v = some row := by
  intro L
  induction L with
  | nil =>
    intro st st' v g b row hfold hne hv hb hrow
    simp only [List.foldlM_nil, Option.pure_def, Option.some.injEq] at hfold
    subst hfold
    exact hrow
  | cons q L ih =>
    intro st st' v g b row hfold hne hv hb hrow
    simp only [List.foldlM_cons] at hfold
    cases hstep : save_tc_step aryMdlParams aryPrfTc aryBetas aryUnqInd st q with
    | none => rw [hstep] at hfold; cases hfold
    | some st1 =>
      rw [hstep] at hfold
      obtain ⟨m, -, hst1⟩ := save_tc_step_some _ _ _ _ _ _ _ hstep
      have hq : q.1 ≠ g := hne q (by simp)
      have hrow1 : st1.1.get? v = some row := by
        rw [hst1]
        rw [writeFit_get? q.1 (aryPrfTc.getD m []) aryUnqInd aryBetas st.1 v g b row hv hb hrow]
        have : ¬ g = q.1 := fun hcontra => hq hcontra.symm
        rw [if_neg this]
      exact ih st1 st' v g b row hfold (fun q' hq' => hne q' (by simp [hq'])) hv hb hrow1

theorem fnd_unq_rws_fst (rows : List Prm) : (fnd_unq_rws rows).1 = rows.dedup := rfl

theorem get?_replicate_of_lt {α : Type} (a : α) (n v : ℕ) (h : v < n) :
    (List.replicate n a).get? v = some a := by
  rw [List.get?_eq_getElem?]
  exact List.getElem?_replicate_of_lt h

/-- The visit-counter vector keeps the voxel count through the whole loop. -/
theorem save_tc_fold_snd_length (aryMdlParams : List Prm) (aryPrfTc : List Mat)
    (aryBetas : Mat) (aryUnqInd : List ℕ) :
    ∀ (L : List (ℕ × Prm)) (st st' : Mat × List ℕ),
      List.foldlM (save_tc_step aryMdlParams aryPrfTc aryBetas aryUnqInd) st L = some st' →
      st.2.length = aryUnqInd.length → st'.2.length = aryUnqInd.length := by
  intro L
  induction L with
  | nil =>
    intro st st' hfold hlen
    simp only [List.foldlM_nil, Option.pure_def, Option.some.injEq] at hfold
    subst hfold
    exact hlen
  | cons q L ih =>
    intro st st' hfold hlen
    simp only [List.foldlM_cons] at hfold
    cases hstep : save_tc_step aryMdlParams aryPrfTc aryBetas aryUnqInd st q with
    | none => rw [hstep] at hfold; cases hfold
    | some st1 =>
      rw [hstep] at hfold
      obtain ⟨m, -, hst1⟩ := save_tc_step_some _ _ _ _ _ _ _ hstep
      refine ih st1 st' hfold ?_
      rw [hst1]
      exact bumpVisits_length q.1 aryUnqInd st.2 hlen.symm

/-- The touched iteration bumps the voxel's visit count by one and no other
iteration changes it. -/
theorem save_tc_fold_snd_touched (aryMdlParams : List Prm) (aryPrfTc : List Mat)
    (aryBetas : Mat) (aryUnqInd : List ℕ)
    (L1 L2 : List (ℕ × Prm)) (q0 : ℕ × Prm) (st st' : Mat × List ℕ) (v g c : ℕ)
    (hfold : List.foldlM (save_tc_step aryMdlParams aryPrfTc aryBetas aryUnqInd) st
      (L1 ++ q0 :: L2) = some st')
    (hq0 : q0.1 = g) (h1 : ∀ q ∈ L1, q.1 ≠ g) (h2 : ∀ q ∈ L2, q.1 ≠ g)
    (hv : aryUnqInd.get? v = some g) (hc : st.2.get? v = some c) :
    st'.2.get? v = some (c + 1) := by
  rw [List.foldlM_append] at hfold
  simp only [bind, Option.bind_eq_some] at hfold
  obtain ⟨s1, hL1, hrest⟩ := hfold
  rw [List.foldlM_cons] at hrest
  simp only [bind, Option.bind_eq_some] at hrest
  obtain ⟨s2, hstep, hL2⟩ := hrest
  have hs1 : s1.2.get? v = some c :=
    save_tc_fold_snd_untouched _ _ _ _ L1 st s1 v g c hL1 h1 hv hc
  obtain ⟨m, -, hs2⟩ := save_tc_step_some _ _ _ _ _ _ _ hstep
  have hs2c : s2.2.get? v = some (c + 1) := by
    rw [hs2]
    rw [bumpVisits_get? q0.1 aryUnqInd s1.2 v g c hv hs1, hq0, if_pos rfl]
  exact save_tc_fold_snd_untouched _ _ _ _ L2 s2 st' v g (c + 1) hL2 h2 hv hs2c

/-- The touched iteration writes the voxel's fitted row as the weight-model
inner product of the looked-up model, and no other iteration changes it. -/
theorem save_tc_fold_fst_touched (aryMdlParams : List Prm) (aryPrfTc : List Mat)
    (aryBetas : Mat) (aryUnqInd : List ℕ)
    (L1 L2 : List (ℕ × Prm)) (q0 : ℕ × Prm) (st st' : Mat × List ℕ) (v g : ℕ)
    (b row : Vec)
    (hfold : List.foldlM (save_tc_step aryMdlParams aryPrfTc aryBetas aryUnqInd) st
      (L1 ++ q0 :: L2) = some st')
    (hq0 : q0.1 = g) (h1 : ∀ q ∈ L1, q.1 ≠ g) (h2 : ∀ q ∈ L2, q.1 ≠ g)
    (hv : aryUnqInd.get? v = some g) (hb : aryBetas.get? v = some b)
    (hrow : st.1.get? v = some row) :
    ∃ m, np_where_first (fun r => rowIsClose r q0.2) aryMdlParams = some m ∧
      st'.1.get? v = some (dotVec b (aryPrfTc.getD m [])) := by
  rw [List.foldlM_append] at hfold
  simp only [bind, Option.bind_eq_some] at hfold
  obtain ⟨s1, hL1, hrest⟩ := hfold
  rw [List.foldlM_cons] at hrest
  simp only [bind, Option.bind_eq_some] at hrest
  obtain ⟨s2, hstep, hL2⟩ := hrest
  have hs1 : s1.1.get? v = some row :=
    save_tc_fold_fst_untouched _ _ _ _ L1 st s1 v g b row hL1 h1 hv hb hrow
  obtain ⟨m, hm, hs2⟩ := save_tc_step_some _ _ _ _ _ _ _ hstep
  refine ⟨m, hm, ?_⟩
  have hs2row : s2.1.get? v = some (dotVec b (aryPrfTc.getD m [])) := by
    rw [hs2]
    rw [writeFit_get? q0.1 (aryPrfTc.getD m []) aryUnqInd aryBetas s1.1 v g b row hv hb hs1,
      hq0, if_pos rfl]
  exact save_tc_fold_fst_untouched _ _ _ _ L2 s2 st' v g b
    (dotVec b (aryPrfTc.getD m [])) hL2 h2 hv hb hs2row

/-- C9: the groups induced by the inverse index of `fnd_unq_rws` partition
the voxels: provided every grid lookup in the loop succeeds (the loop
returns a state rather than raising), every entry of the visit-counter
vector equals exactly 1, and every distinct-row group is selected by at
least one voxel (no group's mask is all-false). -/
theorem save_tc_voxel_partition (aryMdlParams : List Prm) (aryPrfTc : List Mat)
    (aryIntGssPrm : List Prm) (aryBetas : Mat) (aryFitTc : Mat) (vecVxlTst : List ℕ)
    (h : save_tc_to_nii_core aryMdlParams aryPrfTc aryIntGssPrm aryBetas =
      some (aryFitTc, vecVxlTst)) :
    (∀ v c, vecVxlTst.get? v = some c → c = 1) ∧
    (∀ g u, aryIntGssPrm.dedup.get? g = some u →
      ∃ v, (fnd_unq_rws aryIntGssPrm).2.get? v = some g) := by
  constructor
  · intro v c hvc
    unfold save_tc_to_nii_core at h
    have hvxlen : vecVxlTst.length = (fnd_unq_rws aryIntGssPrm).2.length := by
      have := save_tc_fold_snd_length aryMdlParams aryPrfTc aryBetas
        (fnd_unq_rws aryIntGssPrm).2 _ _ _ h
        (by rw [List.length_replicate, fnd_unq_rws_snd_length])
      exact this
    obtain ⟨hvlt, -⟩ := List.get?_eq_some.mp hvc
    have hvn : v < aryIntGssPrm.length := by
      rw [hvxlen, fnd_unq_rws_snd_length] at hvlt
      exact hvlt
    have hv : aryIntGssPrm.get? v = some (aryIntGssPrm.get ⟨v, hvn⟩) :=
      List.get?_eq_get hvn
    obtain ⟨g, hg, hdg⟩ := fnd_unq_rws_inverse aryIntGssPrm v _ hv
    obtain ⟨L1, L2, hsplit, h1, h2⟩ :=
      pyEnumerateFrom_split aryIntGssPrm.dedup 0 g _ hdg
    simp only [Nat.zero_add] at hsplit h1 h2
    have hlist : pyEnumerate ((fnd_unq_rws aryIntGssPrm).1) =
        L1 ++ (g, aryIntGssPrm.get ⟨v, hvn⟩) :: L2 := by
      rw [fnd_unq_rws_fst]
      exact hsplit
    rw [hlist] at h
    have hinit : (List.replicate aryIntGssPrm.length 0).get? v = some 0 :=
      get?_replicate_of_lt 0 aryIntGssPrm.length v hvn
    have hfinal := save_tc_fold_snd_touched aryMdlParams aryPrfTc aryBetas
      (fnd_unq_rws aryIntGssPrm).2 L1 L2 _ _ _ v g 0 h rfl h1 h2 hg hinit
    rw [hfinal] at hvc
    simp only [Option.some.injEq] at hvc
    omega
  · intro g u hg
    exact fnd_unq_rws_surj aryIntGssPrm g u hg

/-- C3: for every voxel, the reconstructed fitted time-course row equals the
inner product, over the kernel dimension, of the voxel's weight vector with
the model row matched to the voxel's own winning triple:
`aryFitTc[voxel, :] = aryBetas[voxel, :] · aryPrfTc[lgcMdl, :, :]`. -/
theorem save_tc_fit_rows (aryMdlParams : List Prm) (aryPrfTc : List Mat)
    (aryIntGssPrm : List Prm) (aryBetas : Mat) (aryFitTc : Mat) (vecVxlTst : List ℕ)
    (h : save_tc_to_nii_core aryMdlParams aryPrfTc aryIntGssPrm aryBetas =
      some (aryFitTc, vecVxlTst))
    (v : ℕ) (r : Prm) (b : Vec)
    (hv : aryIntGssPrm.get? v = some r) (hb : aryBetas.get? v = some b) :
    ∃ m, np_where_first (fun row => rowIsClose row r) aryMdlParams = some m ∧
      aryFitTc.get? v = some (dotVec b (aryPrfTc.getD m [])) := by
  unfold save_tc_to_nii_core at h
  obtain ⟨hvn, -⟩ := List.get?_eq_some.mp hv
  obtain ⟨g, hg, hdg⟩ := fnd_unq_rws_inverse aryIntGssPrm v r hv
  obtain ⟨L1, L2, hsplit, h1, h2⟩ := pyEnumerateFrom_split aryIntGssPrm.dedup 0 g r hdg
  simp only [Nat.zero_add] at hsplit h1 h2
  have hlist : pyEnumerate ((fnd_unq_rws aryIntGssPrm).1) = L1 ++ (g, r) :: L2 := by
    rw [fnd_unq_rws_fst]
    exact hsplit
  rw [hlist] at h
  have hinit : (List.replicate aryIntGssPrm.length
      (List.replicate (prfTcNumVol aryPrfTc) (0 : ℚ))).get? v =
      some (List.replicate (prfTcNumVol aryPrfTc) (0 : ℚ)) :=
    get?_replicate_of_lt _ aryIntGssPrm.length v hvn
  exact save_tc_fold_fst_touched aryMdlParams aryPrfTc aryBetas
    (fnd_unq_rws aryIntGssPrm).2 L1 L2 (g, r) _ _ v g b
    (List.replicate (prfTcNumVol aryPrfTc) (0 : ℚ)) h rfl h1 h2 hg hb hinit

/-- Concrete reconstruction instance used by the witnesses below: one grid
row `(0, 0, 1)`, one model time course `[[1, 2]]` (one kernel, two volumes),
one voxel whose winning triple is the grid row, weight `[1]`. -/
def wPrm : Prm := ((0 : ℚ), (0 : ℚ), (1 : ℚ))

def wParams : List Prm := [wPrm]

def wPrfTc : List Mat := [[[1, 2]]]

def wGss : List Prm := [wPrm]

def wBetas : Mat := [[1]]

theorem save_tc_core_eval :
    save_tc_to_nii_core wParams wPrfTc wGss wBetas = some ([[1, 2]], [1]) := by
  have hded : wGss.dedup = [wPrm] := List.dedup_eq_self.mpr (List.nodup_singleton wPrm)
  have hwf : np_where_first (fun u => decide (u = wPrm)) [wPrm] = some 0 := by
    simp [np_where_first]
  have hinv : fnd_unq_rws wGss = ([wPrm], [0]) := by
    simp [fnd_unq_rws, hded, wGss, hwf]
  have hlook : np_where_first (fun r => rowIsClose r wPrm) wParams = some 0 := by
    norm_num [np_where_first, wParams, wPrm, rowIsClose, npIsClose, atolRtol, npAbs]
  have hdot : dotVec [1] [[1, 2]] = [1, 2] := by
    norm_num [dotVec, List.range_succ, List.zip]
  unfold save_tc_to_nii_core
  rw [hinv]
  have hlen : wGss.length = 1 := rfl
  have hvol : prfTcNumVol wPrfTc = 2 := rfl
  rw [hlen, hvol]
  simp only [pyEnumerate, pyEnumerateFrom, List.foldlM_cons, List.foldlM_nil,
    List.replicate_succ, List.replicate_zero]
  simp only [save_tc_step, hlook]
  simp only [writeFit, bumpVisits, wPrfTc, List.getD_cons_zero, if_true]
  simp [hdot]

/-- Witness for the C9 theorem at the concrete instance: the loop succeeds
and the single voxel's visit count is exactly 1. -/
theorem save_tc_voxel_partition_witness :
    save_tc_to_nii_core wParams wPrfTc wGss wBetas = some ([[1, 2]], [1]) ∧
    (1 : ℕ) = 1 := by
  refine ⟨save_tc_core_eval, ?_⟩
  exact (save_tc_voxel_partition wParams wPrfTc wGss wBetas [[1, 2]] [1]
    save_tc_core_eval).1 0 1 rfl

/-- Witness for the C3 theorem at the concrete instance: the voxel's fitted
row equals its weight vector dotted with the matched model time course. -/
theorem save_tc_fit_rows_witness :
    save_tc_to_nii_core wParams wPrfTc wGss wBetas = some ([[1, 2]], [1]) ∧
    ([[1, 2]] : Mat).get? 0 = some (dotVec [1] (wPrfTc.getD 0 [])) := by
  refine ⟨save_tc_core_eval, ?_⟩
  obtain ⟨m, hm, hfit⟩ := save_tc_fit_rows wParams wPrfTc wGss wBetas [[1, 2]] [1]
    save_tc_core_eval 0 wPrm [1] rfl rfl
  have hlook : np_where_first (fun row => rowIsClose row wPrm) wParams = some 0 := by
    norm_num [np_where_first, wParams, wPrm, rowIsClose, npIsClose, atolRtol, npAbs]
  rw [hlook] at hm
  simp only [Option.some.injEq] at hm
  subst hm
  exact hfit
